import Mathlib

/-!
Verification of the AutoDS resolution pipeline.

This file gives a shallow embedding of the core of the AutoDS repository:
the agent pipeline (`src/agent/agent.py`), the vector store
(`src/vector/vector_store.py`) and the two executors
(`src/execution/python_exec.py`, `src/execution/r_exec.py`), and proves
properties of the embedded functions.

Modelling conventions:
* Python dicts become association lists `List (String × v)` in insertion
  order; assignment `d[k] = v` overwrites in place when the key exists and
  appends otherwise; lookup returns the first matching entry.
* Python values appearing in argument maps and result maps become the
  inductive type `PyVal`.
* MongoDB `find_one(pred)` becomes `List.find?` over the collection in
  natural (insertion) order.
* Embedding vectors become `List Int` (exact arithmetic in place of
  float32; FAISS `IndexFlatL2` reports squared L2 distances, modelled
  exactly by `sqDist`).
* External effects (the OpenAI embedding API, `importlib`, `rpy2`) become
  oracle records of fallible operations returning `Except String _`;
  a Python `try/except` around such an operation becomes a `match` on the
  `Except` result.
-/

/-- Python's `a.startswith(b)` on character lists: `prefixOf n h` is true
when `n` is a prefix of `h`. -/
def prefixOf : List Char → List Char → Bool
  | [], _ => true
  | _ :: _, [] => false
  | a :: as, b :: bs => a == b && prefixOf as bs

/-- Character-list substring test, auxiliary to `isSubstring`. -/
def infixOf (n : List Char) : List Char → Bool
  | [] => n.isEmpty
  | b :: bs => prefixOf n (b :: bs) || infixOf n bs

/-- Python's `needle in hay` substring containment on strings. -/
def isSubstring (needle hay : String) : Bool :=
  infixOf needle.toList hay.toList

/-- Python's `s.lower()` (character-list implementation of
`String.toLower`, kept kernel-reducible). -/
def lowerStr (s : String) : String :=
  ⟨s.data.map Char.toLower⟩

/-- Whitespace test for `trimStr`. -/
def isSpaceChar (c : Char) : Bool :=
  c == ' ' || c == '\t' || c == '\n' || c == '\r'

/-- Python's `s.strip()` (character-list implementation of
`String.trim`, kept kernel-reducible). -/
def trimStr (s : String) : String :=
  ⟨((s.data.dropWhile isSpaceChar).reverse.dropWhile isSpaceChar).reverse⟩

/-- Splitting accumulator for `splitOnDot`. -/
def splitDotAux : List Char → List Char → List (List Char)
  | [], acc => [acc.reverse]
  | c :: cs, acc =>
    if c == '.' then acc.reverse :: splitDotAux cs [] else splitDotAux cs (c :: acc)

/-- Python's `s.split(".")` (character-list implementation of
`String.splitOn "."`, kept kernel-reducible). -/
def splitOnDot (s : String) : List String :=
  (splitDotAux s.data []).map (fun l => ⟨l⟩)

/-- Python values that flow through argument maps and result maps. -/
inductive PyVal where
  | str : String → PyVal
  | int : Int → PyVal
  | bool : Bool → PyVal
  | list : List PyVal → PyVal
  | pynone : PyVal

/-- A Python dict with string keys, in insertion order. -/
abbrev PyDict (v : Type) := List (String × v)

/-- Python `k in d` for dicts. -/
def dictContains (d : PyDict v) (k : String) : Bool :=
  d.any (fun p => p.1 == k)

/-- Python `d.get(k)` / `d[k]` for dicts: first entry with the key. -/
def dictGet? (d : PyDict v) (k : String) : Option v :=
  (d.find? (fun p => p.1 == k)).map (·.2)

/-- Python `d[k] = v`: overwrite in place when the key exists, append
otherwise. -/
def dictSet (d : PyDict v) (k : String) (x : v) : PyDict v :=
  match d with
  | [] => [(k, x)]
  | (k', x') :: rest =>
    if k' == k then (k, x) :: rest else (k', x') :: dictSet rest k x

mutual
/-- Python `repr` of a `PyVal` (used when rendering list elements). -/
def pyRepr : PyVal → String
  | .str s => "'" ++ s ++ "'"
  | .int n => toString n
  | .bool b => if b then "True" else "False"
  | .list xs => "[" ++ String.intercalate ", " (pyReprList xs) ++ "]"
  | .pynone => "None"

/-- `repr` of each element of a Python list. -/
def pyReprList : List PyVal → List String
  | [] => []
  | x :: xs => pyRepr x :: pyReprList xs
end

/-- Python `str(v)`: like `repr` except that strings print without
quotes. -/
def pyStr : PyVal → String
  | .str s => s
  | v => pyRepr v

/-- One entry of a Python-style descriptor's `parameters` list: a dict
with a `name` and an optional textual `default` (`None` when absent). -/
structure Param where
  name : String
  default : Option String

/-- The `value` sub-document of a catalog record: language, package,
function name, and the per-language parameter encodings (`parameters`
for Python descriptors, `arguments`/`defaults` for R descriptors). -/
structure FuncValue where
  language : String
  package : String
  function_name : String
  parameters : List Param
  arguments : List String
  defaults : List String
  signature : String
  docstring : String

/-- A document of the `functions_catalog` MongoDB collection:
`_id` (modelled as `mongoId`), `key` and `value`. -/
structure Doc where
  mongoId : String
  key : String
  value : FuncValue

/-- The `{key, value}` shape returned by the resolver
(`find_r_linear_model_function` / `search_function`) and consumed by
`infer_parameters`, `generate_code_snippet` and the executors. -/
structure FunctionDetails where
  key : String
  value : FuncValue

/-- The test `not default_val or default_val in ["", "None", "NULL"]`
applied to one (textual) default value inside `infer_parameters`
(`agent.py` line 106): Python truthiness of `None`/`""` plus the explicit
sentinel list. -/
def isRequiredDefault (d : Option String) : Bool :=
  (match d with
   | none => true
   | some s => s.data.isEmpty)
  || d == some "" || d == some "None" || d == some "NULL"

/-- The `required_args` dict of `infer_parameters` (`agent.py` lines
102-107), keyed in first-insertion order; only the keys matter (all
values are `None`), so it is modelled as a key list. The default for
position `i` is `defaults[i] if i < len(defaults) else None`, i.e.
`defaults.getD i none`. -/
def requiredArgsList (fn_args : List String) (defaults : List (Option String)) : List String :=
  (fn_args.enum.foldl
    (fun acc p =>
      if isRequiredDefault (defaults.getD p.1 none) then
        (if acc.contains p.2 then acc else acc ++ [p.2])
      else acc)
    ([] : List String))

/-- The formal-argument names and textual defaults `infer_parameters`
extracts from a descriptor (`agent.py` lines 86-97): `parameters` for a
Python descriptor, `arguments`/`defaults` otherwise, with an
all-empty-string default list substituted when the default list is
falsy. -/
def extractArgsDefaults (fd : FunctionDetails) : List String × List (Option String) :=
  let fn_args :=
    if fd.value.language == "python" then fd.value.parameters.map (·.name)
    else fd.value.arguments
  let defaults : List (Option String) :=
    if fd.value.language == "python" then fd.value.parameters.map (·.default)
    else fd.value.defaults.map some
  let defaults := if defaults.isEmpty then List.replicate fn_args.length (some "") else defaults
  (fn_args, defaults)

/-- The priority pass of `infer_parameters` (`agent.py` lines 111-115):
copy user-supplied values of required parameters first. -/
def inferPriorityPass (provided_args : PyDict PyVal) (required_args : List String) : PyDict PyVal :=
  required_args.foldl
    (fun acc req_arg =>
      if dictContains provided_args req_arg then
        dictSet acc req_arg ((dictGet? provided_args req_arg).getD .pynone)
      else acc)
    ([] : PyDict PyVal)

/-- The extra-argument pass of `infer_parameters` (`agent.py` lines
117-120): include any remaining provided arguments. -/
def inferExtraPass (provided_args : PyDict PyVal) (final_args : PyDict PyVal) : PyDict PyVal :=
  provided_args.foldl
    (fun acc p =>
      if dictContains acc p.1 then acc else dictSet acc p.1 p.2)
    final_args

/-- The query-sensitive linear-regression fallback of `infer_parameters`
(`agent.py` lines 122-133): ensure `formula` (R only) and `data`. -/
def inferLrFallback (language query : String) (required_args : List String)
    (final_args : PyDict PyVal) : PyDict PyVal :=
  if isSubstring "linear regression" (lowerStr query) then
    let final_args :=
      if language == "r" && !dictContains final_args "formula" then
        dictSet final_args "formula" (.str "y ~ x")
      else final_args
    if required_args.contains "data" && !dictContains final_args "data" then
      if language == "r" then
        dictSet final_args "data" (.str "mtcars")
      else
        dictSet final_args "data"
          (.list [.list [.int 1, .int 2], .list [.int 2, .int 3], .list [.int 3, .int 4]])
    else final_args
  else final_args

/-- `infer_parameters(function_details, query, provided_args)` from
`agent.py` lines 75-136: a priority pass copying user-supplied values of
required parameters, a pass copying every remaining user-supplied key,
then the query-sensitive linear-regression fallback filling `formula`
(R only) and `data`. -/
def infer_parameters (fd : FunctionDetails) (query : String)
    (provided_args : PyDict PyVal) : PyDict PyVal :=
  let (fn_args, defaults) := extractArgsDefaults fd
  let language := fd.value.language
  let required_args := requiredArgsList fn_args defaults
  let final_args := inferPriorityPass provided_args required_args
  let final_args := inferExtraPass provided_args final_args
  inferLrFallback language query required_args final_args

/-- `generate_code_snippet(function_details, args)` from `agent.py`
lines 29-72. -/
def generate_code_snippet (fd : FunctionDetails) (args : PyDict PyVal) : String :=
  let language := fd.value.language
  let package := fd.value.package
  let func_name := fd.value.function_name
  let formatted_args := args.map (fun p =>
    let val_str :=
      match p.2 with
      | .str s => "\x22" ++ s ++ "\x22"
      | .list xs =>
        if language == "python" then pyStr (.list xs)
        else
          match (xs.mapM (fun x => match x with | .list r => some r | _ => none)) with
          | some rows =>
            let rendered := rows.map (fun row =>
              "c(" ++ String.intercalate ", " (row.map pyStr) ++ ")")
            "rbind(" ++ String.intercalate ", " rendered ++ ")"
          | none => "c(" ++ String.intercalate ", " (xs.map pyStr) ++ ")"
      | v => pyStr v
    p.1 ++ "=" ++ val_str)
  if language == "python" then
    "import " ++ package ++ "\n" ++ package ++ "." ++ func_name ++ "(" ++
      String.intercalate ", " formatted_args ++ ")"
  else
    "library(" ++ package ++ ")\n" ++ package ++ "::" ++ func_name ++ "(" ++
      String.intercalate ", " formatted_args ++ ")"

/-- The fallback descriptor synthesized by `find_r_linear_model_function`
(`agent.py` lines 164-177) when neither the exact nor the regex catalog
lookup matches. -/
def fallbackLmDescriptor : FunctionDetails :=
  { key := "R: stats::lm - Linear Models"
    value := { language := "r", package := "stats", function_name := "lm",
               parameters := [], arguments := ["formula", "data"], defaults := ["", ""],
               signature := "stats::lm(formula, data)", docstring := "Fits Linear Models" } }

/-- `find_r_linear_model_function()` from `agent.py` lines 139-177:
exact `package=stats, function_name=lm` lookup, then a case-sensitive
`R: stats::lm` key-regex lookup restricted to language `r`, then the
synthesized fallback. `find_one` returns the first document in
collection order. -/
def find_r_linear_model_function (catalog : List Doc) : FunctionDetails :=
  match catalog.find? (fun d => d.value.package == "stats" && d.value.function_name == "lm") with
  | some r_lm => { key := r_lm.key, value := r_lm.value }
  | none =>
    match catalog.find? (fun d => isSubstring "R: stats::lm" d.key && d.value.language == "r") with
    | some r_lm_regex => { key := r_lm_regex.key, value := r_lm_regex.value }
    | none => fallbackLmDescriptor

/-- An embedding vector (exact integers in place of float32 components). -/
abbrev Vec := List Int

/-- Squared L2 distance as reported by FAISS `IndexFlatL2`. -/
def sqDist (u v : Vec) : Int :=
  ((u.zip v).map (fun p => (p.1 - p.2) ^ 2)).sum

/-- The in-memory deserialization of the persisted vector-store artifacts
(`functions.index` as the ordered vector list, `descriptions.txt` as the
ordered key list). `none` at the use sites models a missing `vectors`
directory or index file. -/
structure IndexArtifacts where
  vectors : List Vec
  descriptions : List String

/-- Fuel-driven worker computing the batch slices `l[i:i+n]` for
`i in range(0, len(l), n)` taken by `build_faiss_index`
(`vector_store.py` line 81, batch size 100). -/
def chunksGo (n : Nat) : Nat → List α → List (List α)
  | 0, _ => []
  | _, [] => []
  | fuel + 1, x :: xs => (x :: xs.take (n - 1)) :: chunksGo n fuel (xs.drop (n - 1))

/-- The batch slices proper: the fuel starts at the list length and each
step consumes at least one element, so it never runs out. -/
def chunksOf (n : Nat) (l : List α) : List (List α) :=
  chunksGo n l.length l

/-- The batched embedding loop of `build_faiss_index` (`vector_store.py`
lines 81-94): extend the accumulated embeddings with each batch's
embeddings, aborting the whole build on the first failing batch. -/
def embedAll (embedBatch : List String → Option (List Vec))
    (batches : List (List String)) : Option (List Vec) :=
  batches.foldlM (fun acc b => (embedBatch b).map (fun embs => acc ++ embs)) []

/-- `get_embedding(text)` from `vector_store.py` lines 29-42: a
single-element batch call; `response["data"][0]["embedding"]`. `none`
models the raised exception. -/
def get_embedding (embedBatch : List String → Option (List Vec)) (text : String) : Option Vec :=
  match embedBatch [text] with
  | some (v :: _) => some v
  | _ => none

/-- `load_function_data()` from `vector_store.py` lines 45-63: the
ordered `key` list and the `str(_id) -> document` map. -/
def load_function_data (catalog : List Doc) : List String × List (String × Doc) :=
  (catalog.map (·.key), catalog.map (fun d => (d.mongoId, d)))

/-- `build_faiss_index()` from `vector_store.py` lines 66-111: embed all
keys in batches of 100 and collect the vectors into a flat L2 index
(modelled as the ordered vector list); `(none, [], [])` on an empty
catalog, on any batch failure, or when no embeddings were produced. -/
def build_faiss_index (embedBatch : List String → Option (List Vec))
    (catalog : List Doc) : Option (List Vec) × List String × List (String × Doc) :=
  let (descriptions, function_map) := load_function_data catalog
  if descriptions.isEmpty then (none, [], [])
  else
    match embedAll embedBatch (chunksOf 100 descriptions) with
    | none => (none, [], [])
    | some all_embeddings =>
      if all_embeddings.isEmpty then (none, [], [])
      else (some all_embeddings, descriptions, function_map)

/-- The three files written by `save_faiss_index` (`vector_store.py`
lines 127-131). -/
structure SavedArtifacts where
  indexFile : List Vec
  descriptionsFile : String
  functionMapFile : List (String × String)

/-- `save_faiss_index(index, descriptions, function_map)` from
`vector_store.py` lines 114-133: writes nothing (`none`) when the index
is `None`, otherwise writes the three artifacts together. -/
def save_faiss_index (index : Option (List Vec)) (descriptions : List String)
    (function_map : List (String × Doc)) : Option SavedArtifacts :=
  match index with
  | none => none
  | some idx =>
    some { indexFile := idx,
           descriptionsFile := String.intercalate "\n" descriptions,
           functionMapFile := function_map.map (fun p => (p.1, p.2.key)) }

/-- `index.search(query_embedding, 1)` on a flat L2 index: the position
and squared distance of the nearest stored vector, earliest position on
ties; `none` models the `-1` padding FAISS returns for an empty index
(which `search_function` then skips). The counter `i` is the position of
the first list element. -/
def bestMatch (q : Vec) : List Vec → Nat → Option (Nat × Int)
  | [], _ => none
  | v :: vs, i =>
    match bestMatch q vs (i + 1) with
    | none => some (i, sqDist q v)
    | some (j, d2) => if d2 < sqDist q v then some (j, d2) else some (i, sqDist q v)

/-- The override trigger test shared by `process_query` (`agent.py` line
192) and `search_function` (`vector_store.py` line 142):
`"linear regression" in query.lower() or "linear model" in query.lower()`. -/
def overridePhrase (query : String) : Bool :=
  isSubstring "linear regression" (lowerStr query) || isSubstring "linear model" (lowerStr query)

/-- The `{score, key, value}` result dict of `search_function`. -/
structure SearchResult where
  score : Int
  key : String
  value : FuncValue

/-- The FAISS branch of `search_function` (`vector_store.py` lines
162-218): require the persisted store, embed the query, take the top-1
neighbor, skip out-of-range indices, and re-fetch the live document by
key; any failure returns `none` (the surrounding `try/except` returns
`None`). -/
def faissSearchPath (embedBatch : List String → Option (List Vec))
    (catalog : List Doc) (store : Option IndexArtifacts) (query : String) :
    Option SearchResult :=
  match store with
  | none => none
  | some st =>
    match get_embedding embedBatch query with
    | none => none
    | some qv =>
      match bestMatch qv st.vectors 0 with
      | none => none
      | some (idx, dist) =>
        if h : idx < st.descriptions.length then
          let desc := st.descriptions.get ⟨idx, h⟩
          match catalog.find? (fun d => d.key == desc) with
          | some matched_doc => some { score := dist, key := desc, value := matched_doc.value }
          | none => none
        else none

/-- `search_function(query, top_k=1)` from `vector_store.py` lines
136-218: the linear-regression override performs a direct catalog lookup
(case-insensitive `linear regression|stats::lm` key regex, or exact
`stats`/`lm`, restricted to language `r`) before the FAISS path. -/
def search_function (embedBatch : List String → Option (List Vec))
    (catalog : List Doc) (store : Option IndexArtifacts) (query : String) :
    Option SearchResult :=
  if overridePhrase query then
    match catalog.find? (fun d =>
        (isSubstring "linear regression" (lowerStr d.key)
          || isSubstring "stats::lm" (lowerStr d.key)
          || (d.value.package == "stats" && d.value.function_name == "lm"))
        && d.value.language == "r") with
    | some db_match => some { score := 0, key := db_match.key, value := db_match.value }
    | none => faissSearchPath embedBatch catalog store query
  else faissSearchPath embedBatch catalog store query

/-- The dynamic Python-runtime operations used by
`execute_python_function`: `importlib.import_module`, `getattr`, and
keyword-argument invocation. Handles to runtime objects are opaque
naturals; each operation may raise, modelled by `Except String`. -/
structure PyRuntime where
  importModule : String → Except String Nat
  getAttr : Nat → String → Except String Nat
  callKw : Nat → PyDict PyVal → Except String PyVal

/-- `execute_python_function(function_details, args)` from
`python_exec.py` lines 10-77. The literal `"traceback"` strings stand in
for `traceback.format_exc()`; every failure is caught and normalized to
a `{success: False, error, traceback}` dict. -/
def execute_python_function (rt : PyRuntime) (function_details : FuncValue)
    (args : PyDict PyVal) : PyDict PyVal :=
  let package_name := function_details.package
  let function_name := function_details.function_name
  match rt.importModule package_name with
  | .error e =>
    [("success", .bool false),
     ("error", .str ("Failed to import module " ++ package_name ++ ": " ++ e)),
     ("traceback", .str "traceback")]
  | .ok module_obj =>
    -- Handle cases where function might be in a submodule or class
    let funcRes : Except String Nat :=
      if function_name.data.contains '.' then
        (splitOnDot function_name).foldlM (fun obj part => rt.getAttr obj part) module_obj
      else rt.getAttr module_obj function_name
    match funcRes with
    | .error _ =>
      [("success", .bool false),
       ("error", .str ("module '" ++ package_name ++ "' has no attribute '"
                        ++ function_name ++ "'")),
       ("traceback", .str "traceback")]
    | .ok func =>
      match rt.callKw func args with
      | .ok result =>
        [("success", .bool true), ("result", .str (pyStr result))]
      | .error e =>
        [("success", .bool false), ("error", .str e), ("traceback", .str "traceback")]

/-- An entry of the `r_args` dict built by `execute_r_function`: either a
converted R-runtime object or the raw Python value passed through after
conversion failures. -/
inductive RArg where
  | robj : Nat → RArg
  | raw : PyVal → RArg

/-- The rpy2/R-runtime operations used by `execute_r_function`. Handles
to R objects are opaque naturals; fallible operations return
`Except String`. `strOfR` is Python `str()` on an R object; `firstFloat`
is `float(x[0])`; `firstStr` is `str(x[0])`. -/
structure RRuntime where
  rEval : String → Except String Nat
  rIndex : String → Except String Nat
  formulaOf : String → Except String Nat
  floatVector : List Int → Except String Nat
  strVector : List String → Except String Nat
  matrixOf : Nat → Nat → Nat → Except String Nat
  dataFrame : PyDict Nat → Except String Nat
  callKw : Nat → PyDict RArg → Except String Nat
  assign : String → Nat → Except String Unit
  strOfR : Nat → String
  firstFloat : Nat → Except String Int
  firstStr : Nat → String

/-- `all(isinstance(row, list) for row in value)` with the rows
extracted: `some rows` exactly when every element is a list. -/
def asMatrixRows : List PyVal → Option (List (List PyVal))
  | [] => some []
  | .list r :: rest => (asMatrixRows rest).map (fun rs => r :: rs)
  | _ => none

/-- `all(isinstance(x, (int, float)) for x in value)` with the numbers
extracted (the model's numerics are `Int`). -/
def allInts : List PyVal → Option (List Int)
  | [] => some []
  | .int n :: rest => (allInts rest).map (fun ns => n :: ns)
  | _ => none

/-- The implicit success condition of `np.array(value)` +
`FloatVector(data_array.flatten())` in `execute_r_function` lines 61-69:
the rows must be non-empty, rectangular and numeric; otherwise the
conversion attempt raises and the textual `rbind` fallback runs. -/
def asNumericTable (rows : List (List PyVal)) : Option (List (List Int)) :=
  match rows.mapM allInts with
  | none => none
  | some [] => none
  | some (r0 :: rest) =>
    if rest.all (fun r => r.length == r0.length) then some (r0 :: rest) else none

/-- The list-of-lists conversion of `execute_r_function` lines 59-107:
matrix construction (with the `lm` data-frame special cases for two and
for many columns), falling back to a textual `rbind` command, falling
back to the raw value. -/
def convertMatrixArg (rt : RRuntime) (function_name : String)
    (rows : List (List PyVal)) (v : PyVal) : RArg :=
  let attempt : Except String Nat := do
    match asNumericTable rows with
    | none => Except.error "conversion error"
    | some table =>
      let nrow := table.length
      let ncol := (table.headD []).length
      let r_vector ← rt.floatVector table.flatten
      let r_matrix ← rt.matrixOf r_vector nrow ncol
      if function_name == "lm" then
        if ncol == 2 then
          let xcol ← rt.floatVector (table.map (fun r => r.getD 0 0))
          let ycol ← rt.floatVector (table.map (fun r => r.getD 1 0))
          rt.dataFrame [("x", xcol), ("y", ycol)]
        else
          let cols ← (List.range ncol).mapM (fun i => do
            let c ← rt.floatVector (table.map (fun r => r.getD i 0))
            pure ("col" ++ toString i, c))
          rt.dataFrame cols
      else pure r_matrix
  match attempt with
  | .ok h => .robj h
  | .error _ =>
    -- Fallback to simpler method: a textual rbind command
    let r_cmd := "rbind(" ++ String.intercalate ","
      (rows.map (fun row => "c(" ++ String.intercalate "," (row.map pyStr) ++ ")")) ++ ")"
    match rt.rEval r_cmd with
    | .ok h => .robj h
    | .error _ => .raw v

/-- The flat-list conversion of `execute_r_function` lines 108-119:
numeric vector for all-numeric content, string vector otherwise, raw
value on failure. -/
def convertListArg (rt : RRuntime) (xs : List PyVal) (v : PyVal) : RArg :=
  match allInts xs with
  | some ns =>
    (match rt.floatVector ns with
     | .ok h => .robj h
     | .error _ => .raw v)
  | none =>
    (match rt.strVector (xs.map pyStr) with
     | .ok h => .robj h
     | .error _ => .raw v)

/-- The per-argument conversion chain of `execute_r_function` lines
44-132: formula strings, list values (matrix or vector), well-known
built-in dataset names, everything else as-is. -/
def convertRArg (rt : RRuntime) (function_name : String) (key : String) (v : PyVal) : RArg :=
  match v with
  | .str s =>
    if lowerStr key == "formula" then
      match rt.formulaOf s with
      | .ok h => .robj h
      | .error _ => .raw (.str s)
    else if ["mtcars", "iris", "ToothGrowth", "airquality"].contains (trimStr s) then
      match rt.rEval s with
      | .ok h => .robj h
      | .error _ => .raw (.str s)
    else .raw (.str s)
  | .list xs =>
    (match asMatrixRows xs with
     | some rows => convertMatrixArg rt function_name rows (.list xs)
     | none => convertListArg rt xs (.list xs))
  | other => .raw other

/-- Rendering of `f"{x:.4f}"` for the model's integer stand-ins for R
floats. -/
def fmt4 (n : Int) : String := toString n ++ ".0000"

/-- The detailed linear-model output block of `execute_r_function` lines
141-161: store the model, query summary/coefficients, and format the
intercept/slope string; any failure inside falls back to the basic
stringified result. -/
def lmSummary (rt : RRuntime) (args : PyDict PyVal) (result : Nat) : Except String String := do
  let _ ← rt.assign "model" result
  let _ ← rt.rEval "summary(model)"
  let coef ← rt.rEval "coef(summary(model))"
  let intercept ← rt.rEval "coef(model)[1]"
  let slope ← rt.rEval "if(length(coef(model)) > 1) coef(model)[2] else NA"
  let i0 ← rt.firstFloat intercept
  let base := "Linear Regression Results:\n\n"
    ++ "Formula: " ++ pyStr ((dictGet? args "formula").getD (.str "y ~ x")) ++ "\n\n"
    ++ "Coefficients:\n"
    ++ "  (Intercept): " ++ fmt4 i0 ++ "\n"
  let withSlope ←
    if rt.firstStr slope != "NA" then do
      let s0 ← rt.firstFloat slope
      pure (base ++ "  x: " ++ fmt4 s0 ++ "\n\n")
    else pure base
  pure (withSlope ++ "Summary:\n" ++ rt.strOfR coef)

/-- `execute_r_function(function_details, args)` from `r_exec.py` lines
12-196: load the package, resolve the callable, convert every argument,
invoke, and post-process `lm` results; every failure is caught and
normalized to a structured dict. -/
def execute_r_function (rt : RRuntime) (function_details : FuncValue)
    (args : PyDict PyVal) : PyDict PyVal :=
  let package_name := function_details.package
  let function_name := function_details.function_name
  match rt.rEval ("library(" ++ package_name ++ ")") with
  | .error e =>
    [("success", .bool false),
     ("error", .str ("Failed to load R package '" ++ package_name ++ "': " ++ e))]
  | .ok _ =>
    match rt.rIndex function_name with
    | .error e =>
      [("success", .bool false),
       ("error", .str ("Function '" ++ function_name ++ "' not found in package '"
                        ++ package_name ++ "': " ++ e))]
    | .ok r_func =>
      let r_args : PyDict RArg := args.map (fun p => (p.1, convertRArg rt function_name p.1 p.2))
      match rt.callKw r_func r_args with
      | .error e =>
        [("success", .bool false),
         ("error", .str ("Error calling R function: " ++ e)),
         ("traceback", .str "traceback")]
      | .ok result =>
        if function_name == "lm" then
          match lmSummary rt args result with
          | .ok s => [("success", .bool true), ("result", .str s)]
          | .error _ => [("success", .bool true), ("result", .str (rt.strOfR result))]
        else [("success", .bool true), ("result", .str (rt.strOfR result))]

/-- The ambient state `process_query` runs against: the MongoDB catalog,
the persisted vector store, the embedding provider, and the two runtime
bridges. -/
structure Env where
  catalog : List Doc
  store : Option IndexArtifacts
  embedBatch : List String → Option (List Vec)
  py : PyRuntime
  r : RRuntime

/-- The resolution step of `process_query` (`agent.py` lines 190-203):
the override path always yields `find_r_linear_model_function`'s
descriptor; the normal path takes the `{key, value}` of the vector-store
search result, `none` meaning not found. -/
def resolveDescriptor (env : Env) (user_query : String) : Option FunctionDetails :=
  if overridePhrase user_query then
    some (find_r_linear_model_function env.catalog)
  else
    (search_function env.embedBatch env.catalog env.store user_query).map
      (fun r => { key := r.key, value := r.value })

/-- The dict `{"success": False, "error": "No matching function found"}`
returned by `process_query` when resolution fails (`agent.py` line
201). -/
def notFoundResult : PyDict PyVal :=
  [("success", .bool false), ("error", .str "No matching function found")]

/-- `process_query(user_query, args)` from `agent.py` lines 180-237:
resolve, infer parameters, generate the snippet, dispatch by language,
and annotate the executor result with `code_snippet` and `language`.
The model executors are total, so the exception branch of the
surrounding `try/except` (lines 224-233) is unreachable in the model. -/
def process_query (env : Env) (user_query : String) (args : PyDict PyVal) : PyDict PyVal :=
  match resolveDescriptor env user_query with
  | none => notFoundResult
  | some function_details =>
    let filled_args := infer_parameters function_details user_query args
    let code_snippet := generate_code_snippet function_details filled_args
    let language := function_details.value.language
    if language == "python" then
      let exec_result := execute_python_function env.py function_details.value filled_args
      dictSet (dictSet exec_result "code_snippet" (.str code_snippet)) "language" (.str language)
    else if language == "r" then
      let exec_result := execute_r_function env.r function_details.value filled_args
      dictSet (dictSet exec_result "code_snippet" (.str code_snippet)) "language" (.str language)
    else
      [("success", .bool false), ("error", .str ("Unknown language => " ++ language))]

/-! ### Basic dictionary lemmas -/

theorem dictContains_nil (k : String) : dictContains ([] : PyDict v) k = false := rfl

theorem dictContains_dictSet (d : PyDict v) (k k' : String) (x : v) :
    dictContains (dictSet d k x) k' = (k == k' || dictContains d k') := by
  induction d with
  | nil => simp [dictSet, dictContains]
  | cons p rest ih =>
    obtain ⟨k₀, x₀⟩ := p
    by_cases h : k₀ = k
    · subst h
      simp only [dictSet, beq_self_eq_true, if_true, dictContains, List.any_cons]
      cases hk : (k₀ == k') <;> simp [hk]
    · simp only [dictSet, beq_iff_eq, h, if_false]
      simp only [dictContains, List.any_cons] at ih ⊢
      rw [ih]
      cases hk : (k₀ == k') <;> cases hk2 : (k == k') <;> simp [hk, hk2]

theorem dictGet?_dictSet_self (d : PyDict v) (k : String) (x : v) :
    dictGet? (dictSet d k x) k = some x := by
  induction d with
  | nil => simp [dictSet, dictGet?, List.find?]
  | cons p rest ih =>
    obtain ⟨k₀, x₀⟩ := p
    by_cases h : k₀ = k
    · subst h
      simp [dictSet, dictGet?, List.find?]
    · have h1 : (k₀ == k) = false := by simp [h]
      simp only [dictSet, h1, Bool.false_eq_true, if_false]
      simp only [dictGet?, List.find?, h1] at ih ⊢
      exact ih

theorem dictGet?_dictSet_ne (d : PyDict v) (k k' : String) (x : v) (h : k ≠ k') :
    dictGet? (dictSet d k x) k' = dictGet? d k' := by
  have hkk : (k == k') = false := by simp [h]
  induction d with
  | nil => simp [dictSet, dictGet?, List.find?, hkk]
  | cons p rest ih =>
    obtain ⟨k₀, x₀⟩ := p
    by_cases hk : k₀ = k
    · subst hk
      simp [dictSet, dictGet?, List.find?, hkk]
    · have h2 : (k₀ == k) = false := by simp [hk]
      simp only [dictSet, h2, Bool.false_eq_true, if_false]
      by_cases h3 : k₀ = k'
      · subst h3
        simp [dictGet?, List.find?]
      · have h4 : (k₀ == k') = false := by simp [h3]
        simp only [dictGet?, List.find?, h4] at ih ⊢
        exact ih

theorem dictContains_iff_get (d : PyDict v) (k : String) :
    dictContains d k = true ↔ ∃ x, dictGet? d k = some x := by
  induction d with
  | nil => simp [dictContains, dictGet?]
  | cons p rest ih =>
    obtain ⟨k₀, x₀⟩ := p
    by_cases h : k₀ = k
    · subst h
      simp [dictContains, dictGet?, List.find?]
    · have h1 : (k₀ == k) = false := by simp [h]
      simp only [dictContains, List.any_cons, h1, Bool.false_or] at ih ⊢
      simpa [dictGet?, List.find?, h1] using ih

/-! ### C4: classification of required parameters -/

theorem data_nil_iff_empty (s : String) : s.data = [] ↔ s = "" := by
  constructor
  · intro h
    obtain ⟨d⟩ := s
    have hd : d = [] := h
    subst hd
    rfl
  · intro h
    subst h
    rfl

theorem mem_requiredArgsList_aux (defaults : List (Option String)) :
    ∀ (l : List (Nat × String)) (acc : List String) (k : String),
      k ∈ l.foldl
        (fun acc p =>
          if isRequiredDefault (defaults.getD p.1 none) then
            (if acc.contains p.2 then acc else acc ++ [p.2])
          else acc) acc ↔
      k ∈ acc ∨ ∃ p ∈ l, p.2 = k ∧ isRequiredDefault (defaults.getD p.1 none) = true := by
  intro l
  induction l with
  | nil => simp
  | cons p rest ih =>
    intro acc k
    simp only [List.foldl_cons, List.mem_cons]
    by_cases hreq : isRequiredDefault (defaults.getD p.1 none) = true
    · simp only [hreq, if_true]
      by_cases hc : acc.contains p.2 = true
      · have hmem : p.2 ∈ acc := by simpa using hc
        rw [if_pos hc, ih]
        constructor
        · rintro (hk | ⟨q, hq, hqk, hqreq⟩)
          · exact Or.inl hk
          · exact Or.inr ⟨q, Or.inr hq, hqk, hqreq⟩
        · rintro (hk | ⟨q, hq | hq, hqk, hqreq⟩)
          · exact Or.inl hk
          · subst hq
            exact Or.inl (hqk ▸ hmem)
          · exact Or.inr ⟨q, hq, hqk, hqreq⟩
      · rw [if_neg hc, ih]
        constructor
        · rintro (hk | ⟨q, hq, hqk, hqreq⟩)
          · rcases List.mem_append.mp hk with h | h
            · exact Or.inl h
            · have hkp : k = p.2 := by simpa using h
              exact Or.inr ⟨p, Or.inl rfl, hkp.symm, hreq⟩
          · exact Or.inr ⟨q, Or.inr hq, hqk, hqreq⟩
        · rintro (hk | ⟨q, hq | hq, hqk, hqreq⟩)
          · exact Or.inl (List.mem_append.mpr (Or.inl hk))
          · subst hq
            refine Or.inl (List.mem_append.mpr (Or.inr ?_))
            simp [hqk]
          · exact Or.inr ⟨q, hq, hqk, hqreq⟩
    · rw [if_neg hreq, ih]
      constructor
      · rintro (hk | ⟨q, hq, hqk, hqreq⟩)
        · exact Or.inl hk
        · exact Or.inr ⟨q, Or.inr hq, hqk, hqreq⟩
      · rintro (hk | ⟨q, hq | hq, hqk, hqreq⟩)
        · exact Or.inl hk
        · subst hq
          exact absurd hqreq hreq
        · exact Or.inr ⟨q, hq, hqk, hqreq⟩

/-- C4: in `infer_parameters`, a parameter is classified as required iff
its stored textual default is absent (`None`) or equals one of the
sentinel empty-values `""`, `"None"`, `"NULL"`: the per-default test
`isRequiredDefault` holds exactly on those four cases, and a name enters
the `required_args` key set iff it occurs at some position whose (padded)
default passes that test. -/
theorem autods_required_iff_sentinel_default :
    (∀ d : Option String,
      isRequiredDefault d = true ↔
        d = none ∨ d = some "" ∨ d = some "None" ∨ d = some "NULL") ∧
    (∀ (fn_args : List String) (defaults : List (Option String)) (k : String),
      k ∈ requiredArgsList fn_args defaults ↔
        ∃ i, fn_args[i]? = some k ∧ isRequiredDefault (defaults.getD i none) = true) := by
  constructor
  · intro d
    cases d with
    | none => simp [isRequiredDefault]
    | some s =>
      simp only [isRequiredDefault, Bool.or_eq_true, beq_iff_eq, Option.some.injEq,
        List.isEmpty_iff, data_nil_iff_empty, reduceCtorEq, false_or]
      tauto
  · intro fn_args defaults k
    rw [requiredArgsList, mem_requiredArgsList_aux]
    simp only [List.mem_nil_iff, false_or]
    constructor
    · rintro ⟨p, hp, hpk, hpreq⟩
      refine ⟨p.1, ?_, hpreq⟩
      have := List.mem_enum_iff_getElem?.mp hp
      rw [this, hpk]
    · rintro ⟨i, hik, hireq⟩
      refine ⟨(i, k), ?_, rfl, hireq⟩
      exact List.mem_enum_iff_getElem?.mpr hik

/-! ### C6: no partial index is ever persisted -/

theorem embedAll_none_of_mem (embedBatch : List String → Option (List Vec)) :
    ∀ (batches : List (List String)) (b : List String) (init : List Vec),
      b ∈ batches → embedBatch b = none →
      batches.foldlM (fun acc bt => (embedBatch bt).map (fun embs => acc ++ embs)) init = none := by
  intro batches
  induction batches with
  | nil => intro b init hb; exact absurd hb (List.not_mem_nil b)
  | cons x xs ih =>
    intro b init hb hfail
    rw [List.foldlM_cons]
    rcases List.mem_cons.mp hb with h | h
    · subst h
      rw [hfail]
      rfl
    · cases hx : embedBatch x with
      | none => rfl
      | some embs =>
        simp only [hx, Option.map, Option.bind_eq_bind, Option.some_bind]
        exact ih b _ h hfail

/-- C6: the index build yields no index when the catalog enumeration is
empty or when embedding generation fails for any batch, and
`save_faiss_index` writes none of the three artifacts when handed no
index — a partial index is never persisted. -/
theorem autods_build_never_persists_incomplete_index :
    (∀ (embedBatch : List String → Option (List Vec)) (catalog : List Doc),
      catalog = [] → (build_faiss_index embedBatch catalog).1 = none) ∧
    (∀ (embedBatch : List String → Option (List Vec)) (catalog : List Doc) (b : List String),
      b ∈ chunksOf 100 (catalog.map (·.key)) → embedBatch b = none →
      (build_faiss_index embedBatch catalog).1 = none) ∧
    (∀ (descriptions : List String) (function_map : List (String × Doc)),
      save_faiss_index none descriptions function_map = none) := by
  refine ⟨?_, ?_, ?_⟩
  · intro embedBatch catalog hcat
    subst hcat
    rfl
  · intro embedBatch catalog b hb hfail
    unfold build_faiss_index load_function_data
    simp only
    by_cases hcat : (catalog.map (·.key)).isEmpty
    · simp [hcat]
    · rw [if_neg (by simp [hcat])]
      rw [embedAll, embedAll_none_of_mem embedBatch _ b _ hb hfail]
  · intro descriptions function_map
    rfl

theorem autods_build_never_persists_incomplete_index_witness :
    (build_faiss_index (fun _ => none) []).1 = none ∧
    (build_faiss_index (fun _ => none)
      [{ mongoId := "1", key := "k",
         value := { language := "r", package := "p", function_name := "f",
                    parameters := [], arguments := [], defaults := [],
                    signature := "", docstring := "" } }]).1 = none ∧
    save_faiss_index none [] [] = none :=
  ⟨autods_build_never_persists_incomplete_index.1 (fun _ => none) [] rfl,
   autods_build_never_persists_incomplete_index.2.1 (fun _ => none) _ ["k"] (by decide) rfl,
   autods_build_never_persists_incomplete_index.2.2 [] []⟩

/-! ### C8: NotFound end-to-end on a non-override query with empty state -/

/-- A Python-runtime stub for concrete witnesses: every operation
fails. -/
def stubPyRuntime : PyRuntime :=
  { importModule := fun _ => .error "no module"
    getAttr := fun _ _ => .error "no attribute"
    callKw := fun _ _ => .error "call failed" }

/-- An R-runtime stub for concrete witnesses: every operation fails. -/
def stubRRuntime : RRuntime :=
  { rEval := fun _ => .error "r error"
    rIndex := fun _ => .error "r error"
    formulaOf := fun _ => .error "r error"
    floatVector := fun _ => .error "r error"
    strVector := fun _ => .error "r error"
    matrixOf := fun _ _ _ => .error "r error"
    dataFrame := fun _ => .error "r error"
    callKw := fun _ _ => .error "r error"
    assign := fun _ _ => .error "r error"
    strOfR := fun _ => "robj"
    firstFloat := fun _ => .error "r error"
    firstStr := fun _ => "NA" }

/-- C8: on a query matching no override phrase, with an empty catalog and
no persisted index, the resolver yields NotFound and `process_query`
returns exactly `{success: False, error: "No matching function found"}`. -/
theorem autods_notfound_result_on_empty_state :
    ∀ (env : Env) (q : String) (args : PyDict PyVal),
      overridePhrase q = false → env.catalog = [] → env.store = none →
      process_query env q args =
        [("success", PyVal.bool false), ("error", PyVal.str "No matching function found")] := by
  intro env q args hq hcat hstore
  unfold process_query resolveDescriptor
  rw [if_neg (by simp [hq])]
  unfold search_function
  rw [if_neg (by simp [hq])]
  unfold faissSearchPath
  rw [hstore]
  rfl

theorem autods_notfound_result_on_empty_state_witness :
    process_query
      { catalog := [], store := none, embedBatch := fun _ => none,
        py := stubPyRuntime, r := stubRRuntime }
      "asdkjhasdkjh nonsense" [] =
      [("success", PyVal.bool false), ("error", PyVal.str "No matching function found")] :=
  autods_notfound_result_on_empty_state _ _ [] (by decide) rfl rfl

/-! ### C2: inference for a [formula(required), data(required)] descriptor -/

/-- C2 counterexample: for a Python-language descriptor whose parameter
list is exactly `[formula(required), data(required)]`, inference with
query `"perform linear regression"` and empty provided args yields only
a `data` key — the fallback fills `formula` only when the language is
`r`, so the claim fails for the Python descriptor language. -/
theorem autods_infer_formula_data_counterexample :
    infer_parameters
      { key := "Python: sklearn lm"
        value := { language := "python", package := "sklearn", function_name := "lm",
                   parameters := [{ name := "formula", default := none },
                                  { name := "data", default := none }],
                   arguments := [], defaults := [], signature := "", docstring := "" } }
      "perform linear regression" [] =
      [("data", PyVal.list [PyVal.list [PyVal.int 1, PyVal.int 2],
                            PyVal.list [PyVal.int 2, PyVal.int 3],
                            PyVal.list [PyVal.int 3, PyVal.int 4]])] ∧
    dictContains
      (infer_parameters
        { key := "Python: sklearn lm"
          value := { language := "python", package := "sklearn", function_name := "lm",
                     parameters := [{ name := "formula", default := none },
                                    { name := "data", default := none }],
                     arguments := [], defaults := [], signature := "", docstring := "" } }
        "perform linear regression" []) "formula" = false :=
  ⟨rfl, rfl⟩


/-- C2 amended: for a descriptor with parameter list exactly
`[formula(required), data(required)]`, query `"perform linear
regression"` and empty provided args, inference fills non-empty values
for both `formula` and `data` when the descriptor language is `r`
(`"y ~ x"` and `"mtcars"`), but for the Python descriptor language only
`data` is filled (with the literal numeric table) and `formula` is left
absent. -/
theorem autods_infer_fills_formula_data_amended :
    (∀ d1 d2 : String,
      isRequiredDefault (some d1) = true → isRequiredDefault (some d2) = true →
      ∀ key pkg fn sig doc : String,
        infer_parameters
          { key := key,
            value := { language := "r", package := pkg, function_name := fn,
                       parameters := [], arguments := ["formula", "data"],
                       defaults := [d1, d2], signature := sig, docstring := doc } }
          "perform linear regression" [] =
          [("formula", PyVal.str "y ~ x"), ("data", PyVal.str "mtcars")]) ∧
    (∀ o1 o2 : Option String,
      isRequiredDefault o1 = true → isRequiredDefault o2 = true →
      ∀ key pkg fn sig doc : String,
        infer_parameters
          { key := key,
            value := { language := "python", package := pkg, function_name := fn,
                       parameters := [{ name := "formula", default := o1 },
                                      { name := "data", default := o2 }],
                       arguments := [], defaults := [], signature := sig, docstring := doc } }
          "perform linear regression" [] =
          [("data", PyVal.list [PyVal.list [PyVal.int 1, PyVal.int 2],
                                PyVal.list [PyVal.int 2, PyVal.int 3],
                                PyVal.list [PyVal.int 3, PyVal.int 4]])]) := by
  constructor
  · intro d1 d2 h1 h2 key pkg fn sig doc
    have hreq : requiredArgsList ["formula", "data"] [some d1, some d2] = ["formula", "data"] := by
      simp [requiredArgsList, List.enum, List.enumFrom, List.getD, h1, h2]
    have hex : extractArgsDefaults
        { key := key,
          value := { language := "r", package := pkg, function_name := fn,
                     parameters := [], arguments := ["formula", "data"],
                     defaults := [d1, d2], signature := sig, docstring := doc } } =
        (["formula", "data"], [some d1, some d2]) := rfl
    simp only [infer_parameters, hex, hreq]
    rfl
  · intro o1 o2 h1 h2 key pkg fn sig doc
    have hreq : requiredArgsList ["formula", "data"] [o1, o2] = ["formula", "data"] := by
      simp [requiredArgsList, List.enum, List.enumFrom, List.getD, h1, h2]
    have hex : extractArgsDefaults
        { key := key,
          value := { language := "python", package := pkg, function_name := fn,
                     parameters := [{ name := "formula", default := o1 },
                                    { name := "data", default := o2 }],
                     arguments := [], defaults := [], signature := sig, docstring := doc } } =
        (["formula", "data"], [o1, o2]) := rfl
    simp only [infer_parameters, hex, hreq]
    rfl

theorem autods_infer_fills_formula_data_amended_witness :
    infer_parameters
      { key := "R: stats::lm - Linear Models",
        value := { language := "r", package := "stats", function_name := "lm",
                   parameters := [], arguments := ["formula", "data"],
                   defaults := ["", ""], signature := "s", docstring := "d" } }
      "perform linear regression" [] =
      [("formula", PyVal.str "y ~ x"), ("data", PyVal.str "mtcars")] ∧
    infer_parameters
      { key := "Python: sklearn lm",
        value := { language := "python", package := "sklearn", function_name := "lm",
                   parameters := [{ name := "formula", default := none },
                                  { name := "data", default := none }],
                   arguments := [], defaults := [], signature := "s", docstring := "d" } }
      "perform linear regression" [] =
      [("data", PyVal.list [PyVal.list [PyVal.int 1, PyVal.int 2],
                            PyVal.list [PyVal.int 2, PyVal.int 3],
                            PyVal.list [PyVal.int 3, PyVal.int 4]])] :=
  ⟨autods_infer_fills_formula_data_amended.1 "" "" (by decide) (by decide) _ _ _ _ _,
   autods_infer_fills_formula_data_amended.2 none none (by decide) (by decide) _ _ _ _ _⟩

/-! ### C3: user-supplied keys survive inference unchanged -/

theorem dictContains_false_find?_none (d : PyDict v) (k : String)
    (h : dictContains d k = false) : d.find? (fun p => p.1 == k) = none := by
  rw [List.find?_eq_none]
  intro p hp hpk
  have : dictContains d k = true := by
    simp only [dictContains, List.any_eq_true]
    exact ⟨p, hp, hpk⟩
  rw [h] at this
  exact absurd this (by simp)

theorem dictGet?_append_right (pre d : PyDict v) (k : String)
    (h : dictContains pre k = false) :
    dictGet? (pre ++ d) k = dictGet? d k := by
  simp only [dictGet?, List.find?_append, dictContains_false_find?_none pre k h,
    Option.none_or]

theorem inferPriorityPass_get (provided : PyDict PyVal) :
    ∀ (reqs : List String) (acc : PyDict PyVal),
      (∀ k, dictContains acc k = true → dictGet? acc k = dictGet? provided k) →
      ∀ k, dictContains (reqs.foldl
          (fun acc req_arg =>
            if dictContains provided req_arg then
              dictSet acc req_arg ((dictGet? provided req_arg).getD .pynone)
            else acc) acc) k = true →
        dictGet? (reqs.foldl
          (fun acc req_arg =>
            if dictContains provided req_arg then
              dictSet acc req_arg ((dictGet? provided req_arg).getD .pynone)
            else acc) acc) k = dictGet? provided k := by
  intro reqs
  induction reqs with
  | nil => intro acc hacc k hk; exact hacc k hk
  | cons r rest ih =>
    intro acc hacc k
    simp only [List.foldl_cons]
    by_cases hc : dictContains provided r = true
    · rw [if_pos hc]
      refine ih _ ?_ k
      intro k' hk'
      by_cases hkr : r = k'
      · subst hkr
        obtain ⟨x, hx⟩ := (dictContains_iff_get provided r).mp hc
        rw [dictGet?_dictSet_self, hx]
        simp [hx]
      · rw [dictGet?_dictSet_ne _ _ _ _ hkr]
        apply hacc
        have := dictContains_dictSet acc r k' ((dictGet? provided r).getD .pynone)
        rw [this] at hk'
        have hrk : (r == k') = false := by simp [hkr]
        rw [hrk] at hk'
        simpa using hk'
    · rw [if_neg hc]
      exact ih _ hacc k

theorem inferExtraPass_mono :
    ∀ (rest : PyDict PyVal) (acc : PyDict PyVal) (k : String),
      dictContains acc k = true →
      dictContains (rest.foldl
        (fun acc p => if dictContains acc p.1 then acc else dictSet acc p.1 p.2) acc) k = true := by
  intro rest
  induction rest with
  | nil => intro acc k h; exact h
  | cons p rest' ih =>
    intro acc k h
    simp only [List.foldl_cons]
    by_cases hc : dictContains acc p.1 = true
    · rw [if_pos hc]; exact ih _ _ h
    · rw [if_neg hc]
      refine ih _ _ ?_
      rw [dictContains_dictSet]
      simp [h]

theorem inferExtraPass_spec (provided : PyDict PyVal) :
    ∀ (rest pre acc : PyDict PyVal),
      pre ++ rest = provided →
      (∀ p ∈ pre, dictContains acc p.1 = true) →
      (∀ k, dictContains acc k = true → dictGet? acc k = dictGet? provided k) →
      (∀ k, dictContains (rest.foldl
          (fun acc p => if dictContains acc p.1 then acc else dictSet acc p.1 p.2) acc) k = true →
        dictGet? (rest.foldl
          (fun acc p => if dictContains acc p.1 then acc else dictSet acc p.1 p.2) acc) k =
          dictGet? provided k) ∧
      (∀ p ∈ rest, dictContains (rest.foldl
          (fun acc p => if dictContains acc p.1 then acc else dictSet acc p.1 p.2) acc) p.1 = true) := by
  intro rest
  induction rest with
  | nil =>
    intro pre acc hsplit hpre hacc
    exact ⟨hacc, by simp⟩
  | cons q rest' ih =>
    intro pre acc hsplit hpre hacc
    simp only [List.foldl_cons]
    by_cases hc : dictContains acc q.1 = true
    · have h1 := ih (pre ++ [q]) acc (by simpa using hsplit)
        (by
          intro p hp
          rcases List.mem_append.mp hp with h | h
          · exact hpre p h
          · have : p = q := by simpa using h
            subst this
            exact hc)
        hacc
      rw [if_pos hc]
      refine ⟨h1.1, ?_⟩
      intro p hp
      rcases List.mem_cons.mp hp with h | h
      · subst h
        exact inferExtraPass_mono rest' acc p.1 hc
      · exact h1.2 p h
    · rw [if_neg hc]
      have hqget : dictGet? provided q.1 = some q.2 := by
        have hprenot : dictContains pre q.1 = false := by
          by_contra hcon
          have : dictContains pre q.1 = true := by
            cases h : dictContains pre q.1
            · exact absurd h hcon
            · rfl
          simp only [dictContains, List.any_eq_true] at this
          obtain ⟨p, hp, hpk⟩ := this
          have heq : p.1 = q.1 := by simpa using hpk
          have : dictContains acc q.1 = true := heq ▸ hpre p hp
          exact absurd this hc
        rw [← hsplit, dictGet?_append_right _ _ _ hprenot]
        simp [dictGet?, List.find?]
      have hacc' : ∀ k, dictContains (dictSet acc q.1 q.2) k = true →
          dictGet? (dictSet acc q.1 q.2) k = dictGet? provided k := by
        intro k hk
        by_cases hkq : q.1 = k
        · subst hkq
          rw [dictGet?_dictSet_self, hqget]
        · rw [dictGet?_dictSet_ne _ _ _ _ hkq]
          apply hacc
          rw [dictContains_dictSet] at hk
          have : (q.1 == k) = false := by simp [hkq]
          rw [this] at hk
          simpa using hk
      have h1 := ih (pre ++ [q]) (dictSet acc q.1 q.2) (by simpa using hsplit)
        (by
          intro p hp
          rcases List.mem_append.mp hp with h | h
          · rw [dictContains_dictSet]
            simp [hpre p h]
          · have : p = q := by simpa using h
            subst this
            rw [dictContains_dictSet]
            simp)
        hacc'
      refine ⟨h1.1, ?_⟩
      intro p hp
      rcases List.mem_cons.mp hp with h | h
      · subst h
        refine inferExtraPass_mono rest' _ p.1 ?_
        rw [dictContains_dictSet]
        simp
      · exact h1.2 p h

theorem inferLrFallback_get (language query : String) (reqs : List String)
    (final : PyDict PyVal) (k : String) (h : dictContains final k = true) :
    dictGet? (inferLrFallback language query reqs final) k = dictGet? final k := by
  unfold inferLrFallback
  by_cases hq : isSubstring "linear regression" (lowerStr query) = true
  · rw [if_pos hq]
    simp only
    by_cases hf : (language == "r" && !dictContains final "formula") = true
    · rw [if_pos hf]
      have hkf : k ≠ "formula" := by
        intro hcon
        subst hcon
        simp only [Bool.and_eq_true, Bool.not_eq_true'] at hf
        rw [h] at hf
        exact absurd hf.2 (by simp)
      have hcontains : dictContains (dictSet final "formula" (.str "y ~ x")) k = true := by
        rw [dictContains_dictSet]
        simp [h]
      by_cases hd : (reqs.contains "data" &&
          !dictContains (dictSet final "formula" (.str "y ~ x")) "data") = true
      · rw [if_pos hd]
        have hkd : k ≠ "data" := by
          intro hcon
          subst hcon
          simp only [Bool.and_eq_true, Bool.not_eq_true'] at hd
          rw [hcontains] at hd
          exact absurd hd.2 (by simp)
        by_cases hl : (language == "r") = true
        · rw [if_pos hl, dictGet?_dictSet_ne _ _ _ _ (Ne.symm hkd),
            dictGet?_dictSet_ne _ _ _ _ (Ne.symm hkf)]
        · rw [if_neg hl, dictGet?_dictSet_ne _ _ _ _ (Ne.symm hkd),
            dictGet?_dictSet_ne _ _ _ _ (Ne.symm hkf)]
      · rw [if_neg hd, dictGet?_dictSet_ne _ _ _ _ (Ne.symm hkf)]
    · rw [if_neg hf]
      by_cases hd : (reqs.contains "data" && !dictContains final "data") = true
      · rw [if_pos hd]
        have hkd : k ≠ "data" := by
          intro hcon
          subst hcon
          simp only [Bool.and_eq_true, Bool.not_eq_true'] at hd
          rw [h] at hd
          exact absurd hd.2 (by simp)
        by_cases hl : (language == "r") = true
        · rw [if_pos hl, dictGet?_dictSet_ne _ _ _ _ (Ne.symm hkd)]
        · rw [if_neg hl, dictGet?_dictSet_ne _ _ _ _ (Ne.symm hkd)]
      · rw [if_neg hd]
  · rw [if_neg hq]

/-- C3: `infer_parameters` never drops or overwrites a user-supplied
key: for every descriptor, query and provided map, every key present in
`provided_args` is present in the output with its original value. -/
theorem autods_infer_preserves_provided_args :
    ∀ (fd : FunctionDetails) (query : String) (provided_args : PyDict PyVal)
      (k : String) (x : PyVal),
      dictGet? provided_args k = some x →
      dictGet? (infer_parameters fd query provided_args) k = some x := by
  intro fd query provided k x hget
  have hmem : dictContains provided k = true := by
    rw [dictContains_iff_get]
    exact ⟨x, hget⟩
  simp only [infer_parameters]
  obtain ⟨fn_args, defaults⟩ := extractArgsDefaults fd
  simp only
  set reqs := requiredArgsList fn_args defaults with hreqs
  set final1 := inferPriorityPass provided reqs with hfinal1
  set final2 := inferExtraPass provided final1 with hfinal2
  have hP1 : ∀ k, dictContains final1 k = true → dictGet? final1 k = dictGet? provided k := by
    rw [hfinal1, inferPriorityPass]
    exact inferPriorityPass_get provided reqs [] (by intro k' hk'; simp [dictContains] at hk')
  have hspec := inferExtraPass_spec provided provided [] final1 (by simp)
    (by intro p hp; simp [dictContains] at hp) hP1
  have hP2 : ∀ k, dictContains final2 k = true → dictGet? final2 k = dictGet? provided k := by
    rw [hfinal2, inferExtraPass]
    exact hspec.1
  have hC2 : dictContains final2 k = true := by
    simp only [dictContains, List.any_eq_true] at hmem
    obtain ⟨p, hp, hpk⟩ := hmem
    have heq : p.1 = k := by simpa using hpk
    rw [hfinal2, inferExtraPass]
    exact heq ▸ hspec.2 p hp
  rw [inferLrFallback_get _ _ _ _ _ hC2, hP2 k hC2, hget]

theorem autods_infer_preserves_provided_args_witness :
    dictGet?
      (infer_parameters
        { key := "R: stats::lm - Linear Models",
          value := { language := "r", package := "stats", function_name := "lm",
                     parameters := [], arguments := ["formula", "data"],
                     defaults := ["", ""], signature := "s", docstring := "d" } }
        "perform linear regression" [("formula", PyVal.str "z ~ w")]) "formula" =
      some (PyVal.str "z ~ w") :=
  autods_infer_preserves_provided_args _ _ _ "formula" _ rfl

/-! ### C7: executors normalize all failures to structured results -/

/-- The normalized result shape every executor returns: either a success
dict carrying a `result`, or a failure dict carrying an `error`. -/
def wellFormedResult (r : PyDict PyVal) : Prop :=
  (dictGet? r "success" = some (.bool true) ∧ dictContains r "result" = true) ∨
  (dictGet? r "success" = some (.bool false) ∧ dictContains r "error" = true)

theorem pyExec_wellFormed (rt : PyRuntime) (details : FuncValue) (args : PyDict PyVal) :
    wellFormedResult (execute_python_function rt details args) := by
  unfold execute_python_function
  dsimp only
  repeat' split
  all_goals first
    | exact Or.inl ⟨rfl, rfl⟩
    | exact Or.inr ⟨rfl, rfl⟩

theorem rExec_wellFormed (rt : RRuntime) (details : FuncValue) (args : PyDict PyVal) :
    wellFormedResult (execute_r_function rt details args) := by
  unfold execute_r_function
  dsimp only
  repeat' split
  all_goals first
    | exact Or.inl ⟨rfl, rfl⟩
    | exact Or.inr ⟨rfl, rfl⟩

/-- C7: executing against a nonexistent target namespace yields a
structured `{success: False, error: ...}` result describing the import
failure, in both executors, and both executors always return a
normalized structured result for every runtime behavior — no exception
escapes the boundary. -/
theorem autods_executors_normalize_failures :
    (∀ (rt : PyRuntime) (details : FuncValue) (args : PyDict PyVal) (e : String),
      rt.importModule details.package = .error e →
      execute_python_function rt details args =
        [("success", PyVal.bool false),
         ("error", PyVal.str ("Failed to import module " ++ details.package ++ ": " ++ e)),
         ("traceback", PyVal.str "traceback")]) ∧
    (∀ (rt : RRuntime) (details : FuncValue) (args : PyDict PyVal) (e : String),
      rt.rEval ("library(" ++ details.package ++ ")") = .error e →
      execute_r_function rt details args =
        [("success", PyVal.bool false),
         ("error", PyVal.str ("Failed to load R package '" ++ details.package ++ "': " ++ e))]) ∧
    (∀ (rt : PyRuntime) (details : FuncValue) (args : PyDict PyVal),
      wellFormedResult (execute_python_function rt details args)) ∧
    (∀ (rt : RRuntime) (details : FuncValue) (args : PyDict PyVal),
      wellFormedResult (execute_r_function rt details args)) := by
  refine ⟨?_, ?_, pyExec_wellFormed, rExec_wellFormed⟩
  · intro rt details args e h
    unfold execute_python_function
    dsimp only
    rw [h]
  · intro rt details args e h
    unfold execute_r_function
    dsimp only
    rw [h]

theorem autods_executors_normalize_failures_witness :
    execute_python_function stubPyRuntime
      { language := "python", package := "nonexistent_module_xyz", function_name := "f",
        parameters := [], arguments := [], defaults := [], signature := "", docstring := "" }
      [] =
      [("success", PyVal.bool false),
       ("error", PyVal.str ("Failed to import module nonexistent_module_xyz: no module")),
       ("traceback", PyVal.str "traceback")] ∧
    execute_r_function stubRRuntime
      { language := "r", package := "nonexistentpkg", function_name := "f",
        parameters := [], arguments := [], defaults := [], signature := "", docstring := "" }
      [] =
      [("success", PyVal.bool false),
       ("error", PyVal.str ("Failed to load R package 'nonexistentpkg': r error"))] ∧
    wellFormedResult (execute_python_function stubPyRuntime
      { language := "python", package := "m", function_name := "f",
        parameters := [], arguments := [], defaults := [], signature := "", docstring := "" } []) ∧
    wellFormedResult (execute_r_function stubRRuntime
      { language := "r", package := "m", function_name := "f",
        parameters := [], arguments := [], defaults := [], signature := "", docstring := "" } []) :=
  ⟨by
    have := autods_executors_normalize_failures.1 stubPyRuntime
      { language := "python", package := "nonexistent_module_xyz", function_name := "f",
        parameters := [], arguments := [], defaults := [], signature := "", docstring := "" }
      [] "no module" rfl
    simpa using this,
   by
    have := autods_executors_normalize_failures.2.1 stubRRuntime
      { language := "r", package := "nonexistentpkg", function_name := "f",
        parameters := [], arguments := [], defaults := [], signature := "", docstring := "" }
      [] "r error" rfl
    simpa using this,
   autods_executors_normalize_failures.2.2.1 stubPyRuntime _ [],
   autods_executors_normalize_failures.2.2.2 stubRRuntime _ []⟩

/-! ### C10: unknown descriptor language short-circuits execution -/

theorem dictContains_dictSet_self (d : PyDict v) (k : String) (x : v) :
    dictContains (dictSet d k x) k = true := by
  rw [dictContains_dictSet]
  simp

theorem dictContains_dictSet_mono (d : PyDict v) (k k' : String) (x : v)
    (h : dictContains d k = true) : dictContains (dictSet d k' x) k = true := by
  rw [dictContains_dictSet, h]
  simp

/-- C10: when the resolved descriptor's language is neither `python` nor
`r`, `process_query` returns the unknown-language error dict, and the
result does not depend on either executor runtime (neither executor is
invoked). -/
theorem autods_unknown_language_result :
    ∀ (env : Env) (q : String) (args : PyDict PyVal) (fd : FunctionDetails),
      resolveDescriptor env q = some fd →
      fd.value.language ≠ "python" → fd.value.language ≠ "r" →
      process_query env q args =
        [("success", PyVal.bool false),
         ("error", PyVal.str ("Unknown language => " ++ fd.value.language))] ∧
      (∀ (py' : PyRuntime) (r' : RRuntime),
        process_query { env with py := py', r := r' } q args = process_query env q args) := by
  intro env q args fd hres hpy hr
  have hbp : (fd.value.language == "python") = false := by simp [hpy]
  have hbr : (fd.value.language == "r") = false := by simp [hr]
  have hmain : process_query env q args =
      [("success", PyVal.bool false),
       ("error", PyVal.str ("Unknown language => " ++ fd.value.language))] := by
    unfold process_query
    rw [hres]
    dsimp only
    rw [if_neg (by simp [hbp]), if_neg (by simp [hbr])]
  refine ⟨hmain, ?_⟩
  intro py' r'
  have hres' : resolveDescriptor { env with py := py', r := r' } q = some fd := hres
  have hmain' : process_query { env with py := py', r := r' } q args =
      [("success", PyVal.bool false),
       ("error", PyVal.str ("Unknown language => " ++ fd.value.language))] := by
    unfold process_query
    rw [hres']
    dsimp only
    rw [if_neg (by simp [hbp]), if_neg (by simp [hbr])]
  rw [hmain, hmain']

/-- A one-entry catalog whose descriptor declares an unsupported
language, for the C10 witness. -/
def juliaDoc : Doc :=
  { mongoId := "1", key := "Julia: Statistics mean"
    value := { language := "julia", package := "Statistics", function_name := "mean",
               parameters := [], arguments := [], defaults := [],
               signature := "", docstring := "" } }

/-- An environment that resolves every non-override query to
`juliaDoc` through the FAISS path, for the C10 witness. -/
def juliaEnv : Env :=
  { catalog := [juliaDoc]
    store := some { vectors := [[0]], descriptions := ["Julia: Statistics mean"] }
    embedBatch := fun ts => some (ts.map (fun _ => [0]))
    py := stubPyRuntime
    r := stubRRuntime }

theorem autods_unknown_language_result_witness :
    process_query juliaEnv "compute the mean" [] =
      [("success", PyVal.bool false), ("error", PyVal.str ("Unknown language => julia"))] ∧
    process_query { juliaEnv with py := stubPyRuntime, r := stubRRuntime } "compute the mean" [] =
      process_query juliaEnv "compute the mean" [] :=
  ⟨(autods_unknown_language_result juliaEnv "compute the mean" []
      { key := "Julia: Statistics mean", value := juliaDoc.value }
      rfl (by decide) (by decide)).1,
   (autods_unknown_language_result juliaEnv "compute the mean" []
      { key := "Julia: Statistics mean", value := juliaDoc.value }
      rfl (by decide) (by decide)).2 stubPyRuntime stubRRuntime⟩

/-! ### C1: the linear-regression override never dead-ends -/

theorem unknown_language_head (lang : String) :
    ("Unknown language => " ++ lang).data.head? = some 'U' := by
  obtain ⟨d⟩ := lang
  rfl

theorem unknownLang_ne_notFound (lang : String) :
    ([("success", PyVal.bool false), ("error", PyVal.str ("Unknown language => " ++ lang))] :
      PyDict PyVal) ≠ notFoundResult := by
  intro h
  have hstr : PyVal.str ("Unknown language => " ++ lang) =
      PyVal.str "No matching function found" :=
    congrArg (fun l => (l.getD 1 ("", PyVal.pynone)).2) h
  have hs : "Unknown language => " ++ lang = "No matching function found" := by
    injection hstr
  have hhead := congrArg (fun s : String => s.data.head?) hs
  simp only at hhead
  rw [unknown_language_head] at hhead
  have hUN : some 'U' = some 'N' := hhead
  simp at hUN

theorem result_with_snippet_ne_notFound (r : PyDict PyVal) (a b : PyVal) :
    dictSet (dictSet r "code_snippet" a) "language" b ≠ notFoundResult := by
  intro h
  have h1 : dictContains (dictSet (dictSet r "code_snippet" a) "language" b) "code_snippet" = true :=
    dictContains_dictSet_mono _ _ _ _ (dictContains_dictSet_self _ _ _)
  rw [h] at h1
  exact absurd h1 (by decide)

/-- C1: for every query containing `linear regression` or `linear model`
(case-insensitive, substring), the resolution step always yields the
descriptor produced by `find_r_linear_model_function` — exact
`stats`/`lm` lookup first, then the `R: stats::lm` regex lookup
restricted to language `r`, then the synthesized fallback descriptor —
and `process_query` never returns the NotFound result on this path,
whatever the catalog, index and runtimes are. -/
theorem autods_override_always_resolves :
    ∀ (env : Env) (q : String) (args : PyDict PyVal),
      overridePhrase q = true →
      resolveDescriptor env q = some (find_r_linear_model_function env.catalog) ∧
      (∀ d, env.catalog.find?
          (fun d => d.value.package == "stats" && d.value.function_name == "lm") = some d →
        find_r_linear_model_function env.catalog = { key := d.key, value := d.value }) ∧
      (env.catalog.find?
          (fun d => d.value.package == "stats" && d.value.function_name == "lm") = none →
        ∀ d, env.catalog.find?
            (fun d => isSubstring "R: stats::lm" d.key && d.value.language == "r") = some d →
        find_r_linear_model_function env.catalog = { key := d.key, value := d.value }) ∧
      (env.catalog.find?
          (fun d => d.value.package == "stats" && d.value.function_name == "lm") = none →
        env.catalog.find?
            (fun d => isSubstring "R: stats::lm" d.key && d.value.language == "r") = none →
        find_r_linear_model_function env.catalog = fallbackLmDescriptor) ∧
      process_query env q args ≠ notFoundResult := by
  intro env q args hq
  have hres : resolveDescriptor env q = some (find_r_linear_model_function env.catalog) := by
    unfold resolveDescriptor
    rw [if_pos (by simp [hq])]
  refine ⟨hres, ?_, ?_, ?_, ?_⟩
  · intro d hd
    unfold find_r_linear_model_function
    rw [hd]
  · intro h1 d hd
    unfold find_r_linear_model_function
    rw [h1, hd]
  · intro h1 h2
    unfold find_r_linear_model_function
    rw [h1, h2]
  · unfold process_query
    rw [hres]
    dsimp only
    by_cases h1 : (((find_r_linear_model_function env.catalog).value.language) == "python") = true
    · rw [if_pos h1]
      exact result_with_snippet_ne_notFound _ _ _
    · rw [if_neg h1]
      by_cases h2 : (((find_r_linear_model_function env.catalog).value.language) == "r") = true
      · rw [if_pos h2]
        exact result_with_snippet_ne_notFound _ _ _
      · rw [if_neg h2]
        exact unknownLang_ne_notFound _

/-- A catalog document matching the exact `stats`/`lm` lookup, for the
C1 witness. -/
def lmExactDoc : Doc :=
  { mongoId := "1", key := "R: stats::lm - Linear Models"
    value := { language := "r", package := "stats", function_name := "lm",
               parameters := [], arguments := ["formula", "data"], defaults := ["", ""],
               signature := "stats::lm(formula, data)", docstring := "Fits Linear Models" } }

/-- A catalog document matching only the `R: stats::lm` key-regex lookup
(its exact package/name do not match `stats`/`lm`), for the C1
witness. -/
def lmRegexDoc : Doc :=
  { mongoId := "2", key := "R: stats::lm.fit - Fitter Functions"
    value := { language := "r", package := "stats", function_name := "lm.fit",
               parameters := [], arguments := ["x", "y"], defaults := ["", ""],
               signature := "stats::lm.fit(x, y)", docstring := "Basic fitter" } }

/-- An environment with an empty catalog and no index, for witnesses
exercising the synthesized-fallback and NotFound paths. -/
def emptyEnv : Env :=
  { catalog := [], store := none, embedBatch := fun _ => none,
    py := stubPyRuntime, r := stubRRuntime }

theorem autods_override_always_resolves_witness :
    find_r_linear_model_function [lmExactDoc] =
      { key := lmExactDoc.key, value := lmExactDoc.value } ∧
    find_r_linear_model_function [lmRegexDoc] =
      { key := lmRegexDoc.key, value := lmRegexDoc.value } ∧
    find_r_linear_model_function [] = fallbackLmDescriptor ∧
    resolveDescriptor emptyEnv "fit a linear model" =
      some (find_r_linear_model_function []) ∧
    process_query emptyEnv "fit a linear model" [] ≠ notFoundResult :=
  ⟨(autods_override_always_resolves
      { catalog := [lmExactDoc], store := none, embedBatch := fun _ => none,
        py := stubPyRuntime, r := stubRRuntime }
      "do linear regression" [] (by decide)).2.1 lmExactDoc rfl,
   (autods_override_always_resolves
      { catalog := [lmRegexDoc], store := none, embedBatch := fun _ => none,
        py := stubPyRuntime, r := stubRRuntime }
      "do linear regression" [] (by decide)).2.2.1 rfl lmRegexDoc rfl,
   (autods_override_always_resolves emptyEnv "fit a linear model" [] (by decide)).2.2.2.1 rfl rfl,
   (autods_override_always_resolves emptyEnv "fit a linear model" [] (by decide)).1,
   (autods_override_always_resolves emptyEnv "fit a linear model" [] (by decide)).2.2.2.2⟩

/-! ### C9: which result fields are present on each outcome -/

/-- C9 counterexample: the NotFound outcome of `process_query` carries
only `success` and `error` — the `code_snippet` and `language` fields
are absent, so not every returned result contains all four fields. -/
theorem autods_result_fields_counterexample :
    process_query emptyEnv "hello" [] =
      [("success", PyVal.bool false), ("error", PyVal.str "No matching function found")] ∧
    dictContains (process_query emptyEnv "hello" []) "code_snippet" = false ∧
    dictContains (process_query emptyEnv "hello" []) "language" = false :=
  ⟨rfl, rfl, rfl⟩

theorem annotated_result_fields (r : PyDict PyVal) (hwf : wellFormedResult r) (a b : PyVal) :
    dictContains (dictSet (dictSet r "code_snippet" a) "language" b) "success" = true ∧
    (dictContains (dictSet (dictSet r "code_snippet" a) "language" b) "result" = true ∨
     dictContains (dictSet (dictSet r "code_snippet" a) "language" b) "error" = true) ∧
    dictContains (dictSet (dictSet r "code_snippet" a) "language" b) "code_snippet" = true ∧
    dictContains (dictSet (dictSet r "code_snippet" a) "language" b) "language" = true := by
  have hsucc : dictContains r "success" = true := by
    rcases hwf with ⟨h, _⟩ | ⟨h, _⟩ <;>
      exact (dictContains_iff_get r "success").mpr ⟨_, h⟩
  refine ⟨dictContains_dictSet_mono _ _ _ _ (dictContains_dictSet_mono _ _ _ _ hsucc), ?_,
    dictContains_dictSet_mono _ _ _ _ (dictContains_dictSet_self _ _ _),
    dictContains_dictSet_self _ _ _⟩
  rcases hwf with ⟨_, h⟩ | ⟨_, h⟩
  · exact Or.inl (dictContains_dictSet_mono _ _ _ _ (dictContains_dictSet_mono _ _ _ _ h))
  · exact Or.inr (dictContains_dictSet_mono _ _ _ _ (dictContains_dictSet_mono _ _ _ _ h))

/-- C9 amended: on every outcome where a descriptor was resolved with a
supported language (`python` or `r`), the returned map contains
`success`, `result`-or-`error`, `code_snippet` and `language`; the
NotFound outcome and the unknown-language outcome instead contain only
`success` and `error`. -/
theorem autods_result_fields_amended :
    ∀ (env : Env) (q : String) (args : PyDict PyVal),
      (resolveDescriptor env q = none →
        process_query env q args =
          [("success", PyVal.bool false), ("error", PyVal.str "No matching function found")]) ∧
      (∀ fd, resolveDescriptor env q = some fd →
        ((fd.value.language = "python" ∨ fd.value.language = "r") →
          dictContains (process_query env q args) "success" = true ∧
          (dictContains (process_query env q args) "result" = true ∨
           dictContains (process_query env q args) "error" = true) ∧
          dictContains (process_query env q args) "code_snippet" = true ∧
          dictContains (process_query env q args) "language" = true) ∧
        (fd.value.language ≠ "python" → fd.value.language ≠ "r" →
          process_query env q args =
            [("success", PyVal.bool false),
             ("error", PyVal.str ("Unknown language => " ++ fd.value.language))])) := by
  intro env q args
  constructor
  · intro hres
    unfold process_query
    rw [hres]
    rfl
  · intro fd hres
    constructor
    · intro hlang
      unfold process_query
      rw [hres]
      dsimp only
      rcases hlang with h | h
      · rw [if_pos (by simp [h])]
        exact annotated_result_fields _ (pyExec_wellFormed _ _ _) _ _
      · by_cases hp : (fd.value.language == "python") = true
        · rw [if_pos hp]
          exact annotated_result_fields _ (pyExec_wellFormed _ _ _) _ _
        · rw [if_neg hp, if_pos (by simp [h])]
          exact annotated_result_fields _ (rExec_wellFormed _ _ _) _ _
    · intro hpy hr
      unfold process_query
      rw [hres]
      dsimp only
      rw [if_neg (by simp [hpy]), if_neg (by simp [hr])]

/-- A one-entry Python-language catalog and matching index, for the C9
witness. -/
def pyMeanDoc : Doc :=
  { mongoId := "1", key := "Python: numpy mean"
    value := { language := "python", package := "numpy", function_name := "mean",
               parameters := [{ name := "a", default := none }], arguments := [],
               defaults := [], signature := "numpy.mean(a)", docstring := "Mean" } }

/-- An environment that resolves every non-override query to
`pyMeanDoc` through the FAISS path, for the C9 witness. -/
def pyMeanEnv : Env :=
  { catalog := [pyMeanDoc]
    store := some { vectors := [[0]], descriptions := ["Python: numpy mean"] }
    embedBatch := fun ts => some (ts.map (fun _ => [0]))
    py := stubPyRuntime
    r := stubRRuntime }

theorem autods_result_fields_amended_witness :
    process_query emptyEnv "hello again" [] =
      [("success", PyVal.bool false), ("error", PyVal.str "No matching function found")] ∧
    (dictContains (process_query pyMeanEnv "average these numbers" []) "success" = true ∧
     (dictContains (process_query pyMeanEnv "average these numbers" []) "result" = true ∨
      dictContains (process_query pyMeanEnv "average these numbers" []) "error" = true) ∧
     dictContains (process_query pyMeanEnv "average these numbers" []) "code_snippet" = true ∧
     dictContains (process_query pyMeanEnv "average these numbers" []) "language" = true) ∧
    process_query juliaEnv "compute the mean again" [] =
      [("success", PyVal.bool false), ("error", PyVal.str ("Unknown language => julia"))] :=
  ⟨(autods_result_fields_amended emptyEnv "hello again" []).1 rfl,
   ((autods_result_fields_amended pyMeanEnv "average these numbers" []).2
      { key := "Python: numpy mean", value := pyMeanDoc.value } rfl).1 (Or.inl rfl),
   ((autods_result_fields_amended juliaEnv "compute the mean again" []).2
      { key := "Julia: Statistics mean", value := juliaDoc.value } rfl).2
      (by decide) (by decide)⟩

/-! ### C5: round-trip build-then-search for an exact display key -/

/-- The `Python: sklearn linear regression` document: its display key
contains the override phrase, so searching for that exact key is
intercepted by the override branch. -/
def rtDoc1 : Doc :=
  { mongoId := "1", key := "Python: sklearn linear regression"
    value := { language := "python", package := "sklearn", function_name := "fit",
               parameters := [], arguments := [], defaults := [],
               signature := "", docstring := "" } }

/-- An R-language document whose key also mentions linear regression;
the override branch's direct database lookup returns this one for any
query containing the phrase. -/
def rtDoc2 : Doc :=
  { mongoId := "2", key := "R: foo linear regression"
    value := { language := "r", package := "foo", function_name := "bar",
               parameters := [], arguments := [], defaults := [],
               signature := "", docstring := "" } }

/-- A deterministic (and, on these keys, injective) embedding provider:
each text maps to the one-component vector of its length. -/
def rtEmbed : List String → Option (List Vec) :=
  fun ts => some (ts.map (fun t => [Int.ofNat t.length]))

/-- C5 counterexample: after building the index over a two-entry
catalog with a deterministic embedding, searching for the exact display
key of the first entry returns the *other* entry: the query contains
"linear regression", so `search_function` short-circuits into the
override lookup, which is restricted to language `r` and ignores the
index entirely. The round-trip therefore does not return the queried
entry as top-1. -/
theorem autods_roundtrip_counterexample :
    build_faiss_index rtEmbed [rtDoc1, rtDoc2] =
      (some [[33], [24]],
       ["Python: sklearn linear regression", "R: foo linear regression"],
       [("1", rtDoc1), ("2", rtDoc2)]) ∧
    (search_function rtEmbed [rtDoc1, rtDoc2]
        (some { vectors := [[33], [24]],
                descriptions := ["Python: sklearn linear regression", "R: foo linear regression"] })
        "Python: sklearn linear regression").map (fun r => r.key) =
      some "R: foo linear regression" :=
  ⟨rfl, rfl⟩

theorem sqDist_self (v : Vec) : sqDist v v = 0 := by
  induction v with
  | nil => rfl
  | cons a v ih =>
    simp only [sqDist, List.zip_cons_cons, List.map_cons, List.sum_cons] at ih ⊢
    rw [ih, sub_self]
    simp

theorem sqDist_nonneg (u v : Vec) : 0 ≤ sqDist u v := by
  unfold sqDist
  apply List.sum_nonneg
  intro x hx
  obtain ⟨p, hp, hpx⟩ := List.mem_map.mp hx
  rw [← hpx]
  exact sq_nonneg _

theorem sqDist_eq_zero (u : Vec) :
    ∀ v : Vec, u.length = v.length → sqDist u v = 0 → u = v := by
  induction u with
  | nil =>
    intro v hlen hd
    cases v with
    | nil => rfl
    | cons b v' => simp at hlen
  | cons a u' ih =>
    intro v hlen hd
    cases v with
    | nil => simp at hlen
    | cons b v' =>
      simp only [sqDist, List.zip_cons_cons, List.map_cons, List.sum_cons] at hd
      have h1 : 0 ≤ (a - b) ^ 2 := sq_nonneg _
      have h2 : 0 ≤ sqDist u' v' := sqDist_nonneg u' v'
      rw [sqDist] at h2
      have hsq : (a - b) ^ 2 = 0 := by omega
      have hrest : (List.map (fun p => (p.1 - p.2) ^ 2) (u'.zip v')).sum = 0 := by omega
      have hab : a = b := by
        have := sq_eq_zero_iff.mp hsq
        omega
      have hlen' : u'.length = v'.length := by
        simp only [List.length_cons] at hlen
        omega
      rw [hab, ih v' hlen' (by rw [sqDist]; exact hrest)]

theorem bestMatch_ne_none (q : Vec) (v : Vec) (vs : List Vec) (i : Nat) :
    bestMatch q (v :: vs) i ≠ none := by
  simp only [bestMatch]
  cases bestMatch q vs (i + 1) with
  | none => simp
  | some p =>
    obtain ⟨j, d2⟩ := p
    simp only
    split <;> simp

theorem bestMatch_spec (q : Vec) :
    ∀ (vecs : List Vec) (i j : Nat) (d : Int),
      bestMatch q vecs i = some (j, d) →
      (∃ k, ∃ hk : k < vecs.length, j = i + k ∧ d = sqDist q (vecs.get ⟨k, hk⟩)) ∧
      (∀ k (hk : k < vecs.length), d ≤ sqDist q (vecs.get ⟨k, hk⟩)) := by
  intro vecs
  induction vecs with
  | nil => intro i j d h; simp [bestMatch] at h
  | cons v vs ih =>
    intro i j d h
    simp only [bestMatch] at h
    cases hrec : bestMatch q vs (i + 1) with
    | none =>
      rw [hrec] at h
      simp only [Option.some.injEq, Prod.mk.injEq] at h
      obtain ⟨hj, hd⟩ := h
      have hvs : vs = [] := by
        cases vs with
        | nil => rfl
        | cons v' vs' => exact absurd hrec (bestMatch_ne_none q v' vs' (i + 1))
      subst hvs
      subst hj
      subst hd
      refine ⟨⟨0, by simp, by simp, rfl⟩, ?_⟩
      intro k hk
      cases k with
      | zero => exact le_refl _
      | succ k' => simp at hk
    | some p =>
      obtain ⟨j2, d2⟩ := p
      rw [hrec] at h
      simp only at h
      obtain ⟨⟨k2, hk2, hj2, hd2⟩, hmin2⟩ := ih (i + 1) j2 d2 hrec
      by_cases hlt : d2 < sqDist q v
      · rw [if_pos hlt] at h
        simp only [Option.some.injEq, Prod.mk.injEq] at h
        obtain ⟨hj, hd⟩ := h
        subst hj
        subst hd
        refine ⟨⟨k2 + 1, by simpa using Nat.succ_lt_succ hk2, by omega, by simpa using hd2⟩, ?_⟩
        intro k hk
        cases k with
        | zero => exact le_of_lt hlt
        | succ k' =>
          have hk' : k' < vs.length := by simpa using Nat.lt_of_succ_lt_succ hk
          have := hmin2 k' hk'
          simpa using this
      · rw [if_neg hlt] at h
        simp only [Option.some.injEq, Prod.mk.injEq] at h
        obtain ⟨hj, hd⟩ := h
        subst hj
        subst hd
        refine ⟨⟨0, by simp, by simp, rfl⟩, ?_⟩
        intro k hk
        cases k with
        | zero => exact le_refl _
        | succ k' =>
          have hk' : k' < vs.length := by simpa using Nat.lt_of_succ_lt_succ hk
          have h1 : sqDist q v ≤ d2 := le_of_not_lt hlt
          have h2 := hmin2 k' hk'
          calc sqDist q v ≤ d2 := h1
            _ ≤ _ := by simpa using h2

theorem chunksGo_flatten (n : Nat) :
    ∀ (fuel : Nat) (l : List α), l.length ≤ fuel → (chunksGo n fuel l).flatten = l := by
  intro fuel
  induction fuel with
  | zero =>
    intro l hl
    have : l = [] := List.eq_nil_of_length_eq_zero (Nat.le_zero.mp hl)
    subst this
    rfl
  | succ fuel ih =>
    intro l hl
    cases l with
    | nil => rfl
    | cons x xs =>
      simp only [chunksGo, List.flatten_cons]
      rw [ih (xs.drop (n - 1)) (by simp only [List.length_drop]; simp at hl; omega)]
      simp [List.take_append_drop]

theorem chunksOf_flatten (n : Nat) (l : List α) : (chunksOf n l).flatten = l :=
  chunksGo_flatten n l.length l le_rfl

theorem embedAll_pointwise (f : String → Vec) :
    ∀ (batches : List (List String)) (init : List Vec),
      batches.foldlM
        (fun acc b => (some (b.map f)).map (fun embs => acc ++ embs)) init =
        some (init ++ batches.flatten.map f) := by
  intro batches
  induction batches with
  | nil => intro init; simp
  | cons x xs ih =>
    intro init
    have hstep : (Option.map (fun embs => init ++ embs) (some (x.map f))) =
        some (init ++ x.map f) := rfl
    rw [List.foldlM_cons, hstep]
    simp only [Option.bind_eq_bind, Option.some_bind]
    rw [ih (init ++ x.map f)]
    simp [List.map_append, List.append_assoc]

theorem embedAll_pointwise_chunks (f : String → Vec) (keys : List String) :
    embedAll (fun ts => some (ts.map f)) (chunksOf 100 keys) = some (keys.map f) := by
  rw [embedAll]
  rw [embedAll_pointwise f (chunksOf 100 keys) []]
  rw [chunksOf_flatten]
  rfl

theorem find?_key_of_nodup :
    ∀ (catalog : List Doc) (doc : Doc), (catalog.map (fun d => d.key)).Nodup → doc ∈ catalog →
      catalog.find? (fun d => d.key == doc.key) = some doc := by
  intro catalog
  induction catalog with
  | nil => intro doc _ h; exact absurd h (List.not_mem_nil _)
  | cons c rest ih =>
    intro doc hnd hmem
    rw [List.map_cons, List.nodup_cons] at hnd
    rcases List.mem_cons.mp hmem with h | h
    · subst h
      exact List.find?_cons_of_pos _ (by simp)
    · by_cases hk : c.key = doc.key
      · exfalso
        apply hnd.1
        rw [hk]
        exact List.mem_map_of_mem _ h
      · rw [List.find?_cons_of_neg _ (by simp [hk])]
        exact ih doc hnd.2 h

/-- Evaluation rule for the FAISS branch of `search_function` given the
outcomes of its three steps. -/
theorem faissSearchPath_eq (embedBatch : List String → Option (List Vec))
    (catalog : List Doc) (st : IndexArtifacts) (q : String) (qv : Vec)
    (j : Nat) (d : Int) (m : Doc)
    (h1 : get_embedding embedBatch q = some qv)
    (h2 : bestMatch qv st.vectors 0 = some (j, d))
    (hj : j < st.descriptions.length)
    (h3 : catalog.find? (fun dd => dd.key == st.descriptions.get ⟨j, hj⟩) = some m) :
    faissSearchPath embedBatch catalog (some st) q =
      some { score := d, key := st.descriptions.get ⟨j, hj⟩, value := m.value } := by
  unfold faissSearchPath
  simp only [h1, h2]
  rw [dif_pos hj]
  simp only [h3]

/-- C5 amended: building the Vector Index and then searching with the
exact `displayKey` text of an indexed entry returns that entry as the
top-1 result with distance exactly 0, provided the embedding provider is
a pointwise deterministic function that is injective on the catalog keys
with a fixed vector dimension, the catalog keys are distinct, and the
queried key does not contain an override phrase (a key containing
"linear regression"/"linear model" is intercepted by the override
branch and can resolve to a different entry). -/
theorem autods_roundtrip_amended :
    ∀ (f : String → Vec) (catalog : List Doc) (doc : Doc),
      doc ∈ catalog →
      (catalog.map (fun d => d.key)).Nodup →
      (∀ d1 ∈ catalog, ∀ d2 ∈ catalog, f d1.key = f d2.key → d1.key = d2.key) →
      (∀ dd ∈ catalog, (f dd.key).length = (f doc.key).length) →
      overridePhrase doc.key = false →
      (build_faiss_index (fun ts => some (ts.map f)) catalog).1 =
        some ((catalog.map (fun d => d.key)).map f) ∧
      search_function (fun ts => some (ts.map f)) catalog
        (some { vectors := (catalog.map (fun d => d.key)).map f,
                descriptions := catalog.map (fun d => d.key) })
        doc.key =
        some { score := 0, key := doc.key, value := doc.value } := by
  intro f catalog doc hmem hnodup hinj hdim hov
  have hcatne : catalog ≠ [] := by
    intro h
    subst h
    exact absurd hmem (List.not_mem_nil _)
  have hkeysne : catalog.map (fun d => d.key) ≠ [] := by
    intro h
    exact hcatne (List.map_eq_nil_iff.mp h)
  constructor
  · unfold build_faiss_index load_function_data
    dsimp only
    rw [if_neg (by simpa [List.isEmpty_iff] using hkeysne)]
    rw [embedAll_pointwise_chunks]
    dsimp only
    rw [if_neg (by simpa [List.isEmpty_iff, List.map_eq_nil_iff] using hkeysne)]
  · cases hbm : bestMatch (f doc.key) ((catalog.map (fun d => d.key)).map f) 0 with
    | none =>
      exfalso
      cases hc : (catalog.map (fun d => d.key)).map f with
      | nil => exact hkeysne (List.map_eq_nil_iff.mp hc)
      | cons a l =>
        rw [hc] at hbm
        exact bestMatch_ne_none _ _ _ _ hbm
    | some p =>
      obtain ⟨j, d⟩ := p
      obtain ⟨⟨k, hk, hj, hd⟩, hmin⟩ := bestMatch_spec _ _ _ _ _ hbm
      have hjk : j = k := by omega
      subst hjk
      obtain ⟨n, hn⟩ := List.get_of_mem hmem
      have hnlt : (n : Nat) < ((catalog.map (fun dd => dd.key)).map f).length := by
        simp [n.isLt]
      have hdocpos : ((catalog.map (fun dd => dd.key)).map f).get ⟨n, hnlt⟩ = f doc.key := by
        simp only [List.get_eq_getElem, List.getElem_map]
        rw [← hn]
        simp [List.get_eq_getElem]
      have hmin0 : d ≤ 0 := by
        have := hmin (n : Nat) hnlt
        rw [hdocpos, sqDist_self] at this
        exact this
      have hklt : j < catalog.length := by simpa using hk
      have hkvec : (((catalog.map (fun dd => dd.key)).map f).get ⟨j, hk⟩) =
          f (catalog.get ⟨j, hklt⟩).key := by
        simp [List.get_eq_getElem, List.getElem_map]
      have hd0 : d = 0 := by
        have hnn : 0 ≤ d := by
          rw [hd]
          exact sqDist_nonneg _ _
        omega
      have hkmem : catalog.get ⟨j, hklt⟩ ∈ catalog := List.get_mem catalog _ _
      have hfeq : f doc.key = f (catalog.get ⟨j, hklt⟩).key := by
        apply sqDist_eq_zero
        · exact (hdim _ hkmem).symm
        · rw [← hkvec, ← hd, hd0]
      have hkey : (catalog.get ⟨j, hklt⟩).key = doc.key :=
        (hinj doc hmem (catalog.get ⟨j, hklt⟩) hkmem hfeq).symm
      have hjlen : j < (catalog.map (fun dd => dd.key)).length := by
        simpa using hk
      have hdesc : (catalog.map (fun dd => dd.key)).get ⟨j, hjlen⟩ =
          (catalog.get ⟨j, hklt⟩).key := by
        simp [List.get_eq_getElem, List.getElem_map]
      rw [hkey] at hdesc
      have hfind : catalog.find?
          (fun dd => dd.key == (catalog.map (fun dd => dd.key)).get ⟨j, hjlen⟩) = some doc := by
        rw [hdesc]
        exact find?_key_of_nodup catalog doc hnodup hmem
      have hsearch := faissSearchPath_eq (fun ts => some (ts.map f)) catalog
        { vectors := (catalog.map (fun dd => dd.key)).map f,
          descriptions := catalog.map (fun dd => dd.key) }
        doc.key (f doc.key) j d doc rfl hbm hjlen hfind
      unfold search_function
      rw [if_neg (by simp [hov])]
      rw [hsearch, hdesc, hd0]

/-- A first catalog entry with a 5-character key, for the C5 witness. -/
def wKeyDoc1 : Doc :=
  { mongoId := "1", key := "alpha"
    value := { language := "python", package := "a", function_name := "f",
               parameters := [], arguments := [], defaults := [],
               signature := "", docstring := "" } }

/-- A second catalog entry with a 10-character key, for the C5
witness. -/
def wKeyDoc2 : Doc :=
  { mongoId := "2", key := "beta tools"
    value := { language := "r", package := "b", function_name := "g",
               parameters := [], arguments := [], defaults := [],
               signature := "", docstring := "" } }

/-- The length embedding used by the C5 witness: injective on the two
witness keys and of fixed dimension 1. -/
def wEmbedOne : String → Vec := fun t => [Int.ofNat t.length]

theorem autods_roundtrip_amended_witness :
    (build_faiss_index (fun ts => some (ts.map wEmbedOne)) [wKeyDoc1, wKeyDoc2]).1 =
      some [[5], [10]] ∧
    search_function (fun ts => some (ts.map wEmbedOne)) [wKeyDoc1, wKeyDoc2]
      (some { vectors := [[5], [10]], descriptions := ["alpha", "beta tools"] })
      "beta tools" =
      some { score := 0, key := "beta tools", value := wKeyDoc2.value } := by
  have h := autods_roundtrip_amended wEmbedOne [wKeyDoc1, wKeyDoc2] wKeyDoc2
    (List.Mem.tail _ (List.Mem.head _))
    (by decide)
    (by
      intro d1 hd1 d2 hd2 hf
      fin_cases hd1 <;> fin_cases hd2 <;> simp_all [wEmbedOne, wKeyDoc1, wKeyDoc2] <;> exact absurd hf (by decide))
    (by
      intro dd hdd
      fin_cases hdd <;> rfl)
    (by decide)
  exact h
